import Mathlib

/-!
Verification of the LTO backup manager core (backup / restore / verify /
disaster-recovery pipeline) against its natural-language specification.

The Python source is shallowly embedded: each relevant source function is
translated into an executable Lean definition operating on explicit state.
File sizes are `Nat`; modification times are modelled as `ℤ` (the Python
float enters the core only through subtraction, absolute value and
comparison against the 1.0-second tolerance, all of which the embedding
states over `ℤ`); machine I/O is made explicit through
oracle parameters, and Python exceptions become `Except` results paired
with the database state the failed call leaves behind.
-/

namespace LTO

/-- One scanned source entry, as produced by `_scan_directory` in
`backup.py`: `(abs_path, arcname, is_dir, size_bytes, mtime_float)`.
Directories carry `size = 0` and `mtime = 0`. -/
structure Entry where
  absPath : String
  arcname : String
  isDir   : Bool
  size    : Nat
  mtime   : ℤ
deriving Repr, DecidableEq

/-! ## Tar size estimation (`backup.py`, `_estimated_tar_size`) -/

/-- Embedding of `_estimated_tar_size` (backup.py lines 197-216).
The source loop accumulates `(total, entry_count)`: every entry counts one
512-byte header block, non-directory content is padded to the next
512-byte boundary (`size + (512 - size % 512) % 512`), and a 1024-byte
end-of-archive marker is added at the end. -/
def _estimated_tar_size (items : List Entry) : Nat :=
  let acc := items.foldl
    (fun (acc : Nat × Nat) e =>
      ((if e.isDir then acc.1 else acc.1 + e.size + (512 - e.size % 512) % 512),
       acc.2 + 1))
    (0, 0)
  acc.1 + acc.2 * 512 + 1024

/-- Padding a size to the next multiple of 512, as the spec phrases it. -/
def padTo512 (size : Nat) : Nat := 512 * ((size + 511) / 512)

lemma pad_eq (s : Nat) : s + (512 - s % 512) % 512 = padTo512 s := by
  unfold padTo512
  omega

lemma estimated_foldl_step (items : List Entry) (a c : Nat) :
    items.foldl
      (fun (acc : Nat × Nat) e =>
        ((if e.isDir then acc.1 else acc.1 + e.size + (512 - e.size % 512) % 512),
         acc.2 + 1))
      (a, c)
    = (a + (items.map (fun e => if e.isDir then 0 else padTo512 e.size)).sum,
       c + items.length) := by
  induction items generalizing a c with
  | nil => simp
  | cons e t ih =>
      simp only [List.foldl_cons, List.map_cons, List.sum_cons, List.length_cons]
      rw [ih]
      by_cases h : e.isDir = true
      · simp only [h, if_true, Prod.mk.injEq]
        omega
      · simp only [h, if_false, Bool.false_eq_true, Prod.mk.injEq]
        rw [show padTo512 e.size = e.size + (512 - e.size % 512) % 512 from
          (pad_eq e.size).symm]
        constructor
        · ring
        · omega

/-- C2: the tar framing estimate is exactly 512 bytes of header per entry,
plus each non-directory size rounded up to the next 512-byte boundary,
plus the fixed 1024-byte end-of-archive trailer; a single 100-byte file
yields 2048. -/
theorem C2_estimated_tar_size_exact (items : List Entry) :
    _estimated_tar_size items =
      512 * items.length
        + (items.map (fun e => if e.isDir then 0 else padTo512 e.size)).sum
        + 1024
    ∧ _estimated_tar_size [⟨"/src/f.txt", "f.txt", false, 100, 0⟩] = 2048 := by
  constructor
  · unfold _estimated_tar_size
    rw [estimated_foldl_step]
    simp only [Nat.zero_add]
    ring
  · rfl

/-! ## Incremental diff (`backup.py`, `_filter_changed`) -/

/-- Snapshot value for one path, as built by `_get_previous_snapshot`:
`{ "size": int, "mtime": float }`. -/
structure SnapEntry where
  size  : Nat
  mtime : ℤ
deriving Repr, DecidableEq

/-- The `stats` dictionary `{"new": int, "modified": int, "unchanged": int}`. -/
structure DiffStats where
  new       : Nat
  modified  : Nat
  unchanged : Nat
deriving Repr, DecidableEq

/-- Embedding of `_filter_changed` (backup.py lines 109-142).  The snapshot
dict is modelled as an association list with `lookup` in place of `.get`.
Directories are always appended; a file with no snapshot entry counts NEW,
a file whose size differs or whose mtime differs by strictly more than 1.0
counts MODIFIED, anything else counts UNCHANGED and is not appended. -/
def _filter_changed (all_items : List Entry) (snapshot : List (String × SnapEntry)) :
    List Entry × DiffStats :=
  all_items.foldl
    (fun (acc : List Entry × DiffStats) entry =>
      if entry.isDir then (acc.1 ++ [entry], acc.2)
      else
        match snapshot.lookup entry.arcname with
        | none => (acc.1 ++ [entry], { acc.2 with new := acc.2.new + 1 })
        | some prev =>
            if e_ne : entry.size ≠ prev.size ∨ |entry.mtime - prev.mtime| > 1 then
              (acc.1 ++ [entry], { acc.2 with modified := acc.2.modified + 1 })
            else
              (acc.1, { acc.2 with unchanged := acc.2.unchanged + 1 }))
    ([], ⟨0, 0, 0⟩)

/-- A file (non-directory) absent from the snapshot: classified NEW. -/
def newFileB (snapshot : List (String × SnapEntry)) (e : Entry) : Bool :=
  !e.isDir && (snapshot.lookup e.arcname).isNone

/-- A file present in the snapshot whose size differs or whose mtime
differs by strictly more than 1.0 second: classified MODIFIED. -/
def modifiedFileB (snapshot : List (String × SnapEntry)) (e : Entry) : Bool :=
  !e.isDir &&
    match snapshot.lookup e.arcname with
    | none => false
    | some prev => decide (e.size ≠ prev.size ∨ |e.mtime - prev.mtime| > 1)

/-- A file present in the snapshot that is neither NEW nor MODIFIED. -/
def unchangedFileB (snapshot : List (String × SnapEntry)) (e : Entry) : Bool :=
  !e.isDir &&
    match snapshot.lookup e.arcname with
    | none => false
    | some prev => !(decide (e.size ≠ prev.size ∨ |e.mtime - prev.mtime| > 1))

/-- The diff's selection rule: directories always, files when NEW or MODIFIED. -/
def selectedB (snapshot : List (String × SnapEntry)) (e : Entry) : Bool :=
  e.isDir || newFileB snapshot e || modifiedFileB snapshot e

lemma filter_changed_foldl (l : List Entry) (snapshot : List (String × SnapEntry))
    (cs : List Entry) (st : DiffStats) :
    l.foldl
      (fun (acc : List Entry × DiffStats) entry =>
        if entry.isDir then (acc.1 ++ [entry], acc.2)
        else
          match snapshot.lookup entry.arcname with
          | none => (acc.1 ++ [entry], { acc.2 with new := acc.2.new + 1 })
          | some prev =>
              if e_ne : entry.size ≠ prev.size ∨ |entry.mtime - prev.mtime| > 1 then
                (acc.1 ++ [entry], { acc.2 with modified := acc.2.modified + 1 })
              else
                (acc.1, { acc.2 with unchanged := acc.2.unchanged + 1 }))
      (cs, st)
    = (cs ++ l.filter (selectedB snapshot),
       ⟨st.new + l.countP (newFileB snapshot),
        st.modified + l.countP (modifiedFileB snapshot),
        st.unchanged + l.countP (unchangedFileB snapshot)⟩) := by
  induction l generalizing cs st with
  | nil => simp
  | cons e t ih =>
      simp only [List.foldl_cons, List.filter_cons, List.countP_cons]
      by_cases hd : e.isDir = true
      · have h1 : selectedB snapshot e = true := by simp [selectedB, hd]
        have h2 : newFileB snapshot e = false := by simp [newFileB, hd]
        have h3 : modifiedFileB snapshot e = false := by simp [modifiedFileB, hd]
        have h4 : unchangedFileB snapshot e = false := by simp [unchangedFileB, hd]
        simp only [hd, if_true, ih, h1, h2, h3, h4, if_false, Bool.false_eq_true,
          Prod.mk.injEq, DiffStats.mk.injEq]
        refine ⟨by simp, by omega, by omega, by omega⟩
      · simp only [hd, if_false, Bool.false_eq_true]
        cases hl : snapshot.lookup e.arcname with
        | none =>
            have h1 : selectedB snapshot e = true := by
              simp [selectedB, newFileB, hd, hl]
            have h2 : newFileB snapshot e = true := by simp [newFileB, hd, hl]
            have h3 : modifiedFileB snapshot e = false := by
              simp [modifiedFileB, hd, hl]
            have h4 : unchangedFileB snapshot e = false := by
              simp [unchangedFileB, hd, hl]
            simp only [ih, h1, h2, h3, h4, if_true, if_false, Bool.false_eq_true,
              Prod.mk.injEq, DiffStats.mk.injEq]
            refine ⟨by simp, by omega, by omega, by omega⟩
        | some prev =>
            by_cases hc : e.size ≠ prev.size ∨ |e.mtime - prev.mtime| > 1
            · have h1 : selectedB snapshot e = true := by
                simp [selectedB, modifiedFileB, hd, hl, hc]
              have h2 : newFileB snapshot e = false := by simp [newFileB, hd, hl]
              have h3 : modifiedFileB snapshot e = true := by
                simp [modifiedFileB, hd, hl, hc]
              have h4 : unchangedFileB snapshot e = false := by
                simp [unchangedFileB, hd, hl, hc]
              simp only [dif_pos hc, ih, h1, h2, h3, h4, if_true, if_false,
                Bool.false_eq_true, Prod.mk.injEq, DiffStats.mk.injEq]
              refine ⟨by simp, by omega, by omega, by omega⟩
            · have h1 : selectedB snapshot e = false := by
                simp [selectedB, newFileB, modifiedFileB, hd, hl, hc]
              have h2 : newFileB snapshot e = false := by simp [newFileB, hd, hl]
              have h3 : modifiedFileB snapshot e = false := by
                simp [modifiedFileB, hd, hl, hc]
              have h4 : unchangedFileB snapshot e = true := by
                simp [unchangedFileB, hd, hl, hc]
              simp only [dif_neg hc, ih, h1, h2, h3, h4, if_true, if_false,
                Bool.false_eq_true, Prod.mk.injEq, DiffStats.mk.injEq]
              refine ⟨by simp, by omega, by omega, by omega⟩

lemma countP_diff_partition (snapshot : List (String × SnapEntry))
    (l : List Entry) :
    l.countP (newFileB snapshot) + l.countP (modifiedFileB snapshot)
      + l.countP (unchangedFileB snapshot)
      = l.countP (fun e => !e.isDir) := by
  induction l with
  | nil => simp
  | cons e t ih =>
      simp only [List.countP_cons]
      by_cases hd : e.isDir = true
      · have h2 : newFileB snapshot e = false := by simp [newFileB, hd]
        have h3 : modifiedFileB snapshot e = false := by simp [modifiedFileB, hd]
        have h4 : unchangedFileB snapshot e = false := by simp [unchangedFileB, hd]
        simp only [h2, h3, h4, hd, Bool.not_true, if_false, Bool.false_eq_true]
        omega
      · have hnd : (!e.isDir) = true := by simp [hd]
        cases hl : snapshot.lookup e.arcname with
        | none =>
            have h2 : newFileB snapshot e = true := by simp [newFileB, hd, hl]
            have h3 : modifiedFileB snapshot e = false := by
              simp [modifiedFileB, hd, hl]
            have h4 : unchangedFileB snapshot e = false := by
              simp [unchangedFileB, hd, hl]
            simp only [h2, h3, h4, hnd, if_true, if_false, Bool.false_eq_true]
            omega
        | some prev =>
            by_cases hc : e.size ≠ prev.size ∨ |e.mtime - prev.mtime| > 1
            · have h2 : newFileB snapshot e = false := by simp [newFileB, hd, hl]
              have h3 : modifiedFileB snapshot e = true := by
                simp [modifiedFileB, hd, hl, hc]
              have h4 : unchangedFileB snapshot e = false := by
                simp [unchangedFileB, hd, hl, hc]
              simp only [h2, h3, h4, hnd, if_true, if_false, Bool.false_eq_true]
              omega
            · have h2 : newFileB snapshot e = false := by simp [newFileB, hd, hl]
              have h3 : modifiedFileB snapshot e = false := by
                simp [modifiedFileB, hd, hl, hc]
              have h4 : unchangedFileB snapshot e = true := by
                simp [unchangedFileB, hd, hl, hc]
              simp only [h2, h3, h4, hnd, if_true, if_false, Bool.false_eq_true]
              omega

lemma selected_not_unchanged (snapshot : List (String × SnapEntry)) (e : Entry)
    (h : selectedB snapshot e = true) : unchangedFileB snapshot e = false := by
  by_cases hd : e.isDir = true
  · simp [unchangedFileB, hd]
  · cases hl : snapshot.lookup e.arcname with
    | none => simp [unchangedFileB, hd, hl]
    | some prev =>
        by_cases hc : e.size ≠ prev.size ∨ |e.mtime - prev.mtime| > 1
        · simp [unchangedFileB, hd, hl, hc]
        · exfalso
          simp [selectedB, newFileB, modifiedFileB, hd, hl, hc] at h

/-- C3: the diff selects every directory; a file is NEW exactly when its
path is absent from the snapshot, MODIFIED exactly when its size differs
or its mtime differs by strictly more than 1.0; UNCHANGED files are
excluded; the three counts partition the non-directory entries; and the
diff is deterministic. -/
theorem C3_filter_changed_diff (all_items : List Entry)
    (snapshot : List (String × SnapEntry)) :
    (_filter_changed all_items snapshot).1
        = all_items.filter (selectedB snapshot)
    ∧ (_filter_changed all_items snapshot).2.new
        = all_items.countP (newFileB snapshot)
    ∧ (_filter_changed all_items snapshot).2.modified
        = all_items.countP (modifiedFileB snapshot)
    ∧ (_filter_changed all_items snapshot).2.unchanged
        = all_items.countP (unchangedFileB snapshot)
    ∧ (_filter_changed all_items snapshot).2.new
        + (_filter_changed all_items snapshot).2.modified
        + (_filter_changed all_items snapshot).2.unchanged
        = all_items.countP (fun e => !e.isDir)
    ∧ (∀ e ∈ (_filter_changed all_items snapshot).1,
        unchangedFileB snapshot e = false)
    ∧ (∀ a' s', a' = all_items → s' = snapshot →
        _filter_changed a' s' = _filter_changed all_items snapshot) := by
  have hmain := filter_changed_foldl all_items snapshot [] ⟨0, 0, 0⟩
  have hfc : _filter_changed all_items snapshot
      = ([] ++ all_items.filter (selectedB snapshot),
         ⟨0 + all_items.countP (newFileB snapshot),
          0 + all_items.countP (modifiedFileB snapshot),
          0 + all_items.countP (unchangedFileB snapshot)⟩) := hmain
  have hpart := countP_diff_partition snapshot all_items
  refine ⟨by rw [hfc]; simp, by rw [hfc]; simp, by rw [hfc]; simp,
    by rw [hfc]; simp, ?_, ?_, ?_⟩
  · rw [hfc]
    simpa using hpart
  · intro e he
    rw [hfc] at he
    simp only [List.nil_append, List.mem_filter] at he
    exact selected_not_unchanged snapshot e he.2
  · intro a' s' ha hs
    rw [ha, hs]

/-! ## Node building (`backup.py`, `_build_nodes_and_manifest`) -/

/-- Code-point lexicographic comparison of character lists, mirroring
Python string comparison (used by `sorted(..., key=lambda x: x[1])`). -/
def listCharLt : List Char → List Char → Bool
  | [], [] => false
  | [], _ :: _ => true
  | _ :: _, [] => false
  | a :: as, b :: bs =>
      if a.toNat < b.toNat then true
      else if b.toNat < a.toNat then false
      else listCharLt as bs

/-- Python `a < b` on strings. -/
def strLtB (a b : String) : Bool := listCharLt a.data b.data

/-- Python `a <= b` on strings (total order, so `a <= b = not (b < a)`). -/
def strLeB (a b : String) : Bool := !(strLtB b a)

/-- Split a relative path at its last `/`: `some (dirname, basename)` when a
separator exists, `none` otherwise.  Mirrors `os.path.dirname` /
`os.path.basename` on the forward-slash arcnames the scanner builds
(which never start with a slash). -/
def splitLastSlash : List Char → Option (List Char × List Char)
  | [] => none
  | c :: cs =>
      match splitLastSlash cs with
      | some (d, b) => some (c :: d, b)
      | none => if c = '/' then some ([], cs) else none

/-- `os.path.dirname(arcname) or None`: `none` for a top-level name. -/
def dirname (arc : String) : Option String :=
  (splitLastSlash arc.data).map (fun p => String.mk p.1)

/-- `os.path.basename(arcname)`. -/
def basename (arc : String) : String :=
  match splitLastSlash arc.data with
  | some p => String.mk p.2
  | none => arc

/-- One file/directory node staged in memory before the DB commit
(backup.py line 16): parent as a *list index*, not a DB row id. -/
structure NodeRecord where
  parent_idx  : Option Nat
  name_stored : String
  is_dir      : Bool
  size        : Nat
  mtime       : ℤ
deriving Repr, DecidableEq

/-- One entry of the manifest's `files` list. -/
structure ManifestFile where
  rel_path : String
  name     : String
  is_dir   : Bool
  size     : Nat
  mtime    : ℤ
deriving Repr, DecidableEq

/-- Loop body of the node-building pass of `_build_nodes_and_manifest`
(backup.py lines 180-188).  The accumulator is `(arcname_to_idx, nodes)`;
the dict is an association list whose most recent binding is found first. -/
def buildNodesStep (key : Option (String → String))
    (acc : List (String × Nat) × List NodeRecord) (item : Entry) :
    List (String × Nat) × List NodeRecord :=
  let name := basename item.arcname
  let parent_arcname := dirname item.arcname
  let parent_idx := parent_arcname.bind (fun pa => acc.1.lookup pa)
  let name_stored := match key with
    | some enc => enc name
    | none => name
  let idx := acc.2.length
  ((item.arcname, idx) :: acc.1,
   acc.2 ++ [⟨parent_idx, name_stored, item.isDir, item.size, item.mtime⟩])

/-- Embedding of `_build_nodes_and_manifest` (backup.py lines 149-190):
the manifest lists the full current scan; the staged `NodeRecord` list is
built from the archive items sorted by arcname, filenames optionally
obfuscated through `key`. -/
def _build_nodes_and_manifest (all_items items_for_archive : List Entry)
    (key : Option (String → String)) : List NodeRecord × List ManifestFile :=
  let manifest_files := all_items.map (fun e =>
    ManifestFile.mk e.arcname (basename e.arcname) e.isDir e.size e.mtime)
  let sortedItems := items_for_archive.insertionSort
    (fun a b => strLeB a.arcname b.arcname = true)
  let nodes := (sortedItems.foldl (buildNodesStep key) ([], [])).2
  (nodes, manifest_files)

lemma lookup_mem {α β : Type} [BEq α] [LawfulBEq α]
    (m : List (α × β)) (k : α) (v : β) (h : m.lookup k = some v) :
    (k, v) ∈ m := by
  induction m with
  | nil => simp at h
  | cons p t ih =>
      obtain ⟨a, b⟩ := p
      rw [List.lookup_cons] at h
      cases hbe : k == a with
      | true =>
          have hk : k = a := eq_of_beq hbe
          subst hk
          rw [hbe] at h
          have hb : some b = some v := h
          simp only [Option.some.injEq] at hb
          subst hb
          exact List.mem_cons_self _ _
      | false =>
          rw [hbe] at h
          have h' : t.lookup k = some v := h
          exact List.mem_cons_of_mem _ (ih h')

lemma build_fold_parent_lt (key : Option (String → String)) (l : List Entry)
    (m : List (String × Nat)) (ns : List NodeRecord)
    (hm : ∀ p ∈ m, p.2 < ns.length)
    (hn : ∀ (i p : Nat) (nd : NodeRecord), ns[i]? = some nd →
      nd.parent_idx = some p → p < i) :
    (∀ p ∈ (l.foldl (buildNodesStep key) (m, ns)).1,
        p.2 < (l.foldl (buildNodesStep key) (m, ns)).2.length)
    ∧ (∀ (i p : Nat) (nd : NodeRecord),
        (l.foldl (buildNodesStep key) (m, ns)).2[i]? = some nd →
        nd.parent_idx = some p → p < i) := by
  induction l generalizing m ns with
  | nil => exact ⟨hm, hn⟩
  | cons item t ih =>
      simp only [List.foldl_cons]
      apply ih
      · intro p hp
        simp only [buildNodesStep, List.mem_cons] at hp
        simp only [buildNodesStep, List.length_append, List.length_cons,
          List.length_nil]
        rcases hp with h | h
        · subst h
          simp
        · have := hm p h
          omega
      · intro i p nd hget hpar
        simp only [buildNodesStep] at hget
        rcases Nat.lt_trichotomy i ns.length with hi | hi | hi
        · rw [List.getElem?_append_left hi] at hget
          exact hn i p nd hget hpar
        · subst hi
          rw [List.getElem?_append_right (le_refl _), Nat.sub_self] at hget
          simp only [List.getElem?_cons_zero, Option.some.injEq] at hget
          subst hget
          have hpar' : (dirname item.arcname).bind (fun pa => m.lookup pa)
              = some p := hpar
          cases hd : dirname item.arcname with
          | none =>
              rw [hd] at hpar'
              simp at hpar'
          | some pa =>
              rw [hd] at hpar'
              have hl : m.lookup pa = some p := hpar'
              exact hm (pa, p) (lookup_mem m pa p hl)
        · rw [List.getElem?_append_right (by omega)] at hget
          rcases Nat.exists_eq_add_of_lt hi with ⟨j, hj⟩
          rw [show i - ns.length = j + 1 by omega] at hget
          simp only [List.getElem?_cons_succ] at hget
          exact absurd hget (by simp)

/-! ## Index commit (`backup.py`, `_commit_file_index`) -/

/-- One durable row of the per-tape node table `tape_{tape_id}`
(db.py, `insert_node`): `(id, parent_id, name, is_dir, size, job_id, mtime)`. -/
structure InsertedNode where
  id        : Nat
  parent_id : Option Nat
  name      : String
  is_dir    : Bool
  size      : Nat
  job_id    : Nat
  mtime     : ℤ
deriving Repr, DecidableEq

/-- Loop body of `_commit_file_index` (backup.py lines 231-237) over
`enumerate(nodes)`.  The accumulator is `(id_map, (rows, next_row_id))`:
`id_map` maps list positions to generated row ids (`db.insert_node`'s
`lastrowid` is modelled as a sequential counter), `rows` are the rows
inserted so far in this transaction. -/
def commitStep (job_id : Nat)
    (acc : List (Nat × Nat) × List InsertedNode × Nat)
    (idxnode : Nat × NodeRecord) :
    List (Nat × Nat) × List InsertedNode × Nat :=
  let idx := idxnode.1
  let node := idxnode.2
  let parent_db_id := node.parent_idx.bind (fun p => acc.1.lookup p)
  let db_id := acc.2.2
  ((idx, db_id) :: acc.1,
   acc.2.1 ++ [⟨db_id, parent_db_id, node.name_stored, node.is_dir,
     node.size, job_id, node.mtime⟩],
   db_id + 1)

/-- Embedding of `_commit_file_index` (backup.py lines 223-238): insert
every staged `NodeRecord` in order inside one transaction, translating
list-index parents into generated row ids.  Returns the inserted rows and
the next free row id. -/
def _commit_file_index (nextRowId job_id : Nat) (nodes : List NodeRecord) :
    List InsertedNode × Nat :=
  (nodes.enum.foldl (commitStep job_id) ([], [], nextRowId)).2

/-- The rows `_commit_file_index` generates, described positionally:
the node at position `k` gets row id `nid0 + k`, and its parent reference
resolves through the id map exactly when the parent's position is `< k`. -/
def commitRows (nid0 job_id : Nat) : Nat → List NodeRecord → List InsertedNode
  | _, [] => []
  | k, nd :: rest =>
      ⟨nid0 + k,
       nd.parent_idx.bind (fun p => if p < k then some (nid0 + p) else none),
       nd.name_stored, nd.is_dir, nd.size, job_id, nd.mtime⟩
        :: commitRows nid0 job_id (k + 1) rest

lemma commit_foldl_spec (job_id nid0 : Nat) (ns : List NodeRecord) (k : Nat)
    (idMap : List (Nat × Nat)) (rows : List InsertedNode)
    (hmap : ∀ j, idMap.lookup j = if j < k then some (nid0 + j) else none) :
    ((List.enumFrom k ns).foldl (commitStep job_id) (idMap, rows, nid0 + k)).2
      = (rows ++ commitRows nid0 job_id k ns, nid0 + k + ns.length) := by
  induction ns generalizing k idMap rows with
  | nil => simp [commitRows]
  | cons nd rest ih =>
      simp only [List.enumFrom, List.foldl_cons]
      have hstep : commitStep job_id (idMap, rows, nid0 + k) (k, nd)
          = ((k, nid0 + k) :: idMap,
             rows ++ [⟨nid0 + k,
               nd.parent_idx.bind (fun p => if p < k then some (nid0 + p) else none),
               nd.name_stored, nd.is_dir, nd.size, job_id, nd.mtime⟩],
             nid0 + k + 1) := by
        simp only [commitStep]
        congr 2
        cases hp : nd.parent_idx with
        | none => simp
        | some p =>
            simp only [Option.bind]
            rw [hmap p]
      rw [hstep]
      have hmap' : ∀ j, (((k, nid0 + k) :: idMap).lookup j)
          = if j < k + 1 then some (nid0 + j) else none := by
        intro j
        rw [List.lookup_cons]
        by_cases hj : j = k
        · subst hj
          simp
        · have hbe : (j == k) = false := by simp [hj]
          rw [hbe]
          have : (idMap.lookup j) = if j < k then some (nid0 + j) else none :=
            hmap j
          rw [this]
          by_cases hlt : j < k
          · rw [if_pos hlt, if_pos (by omega)]
          · rw [if_neg hlt, if_neg (by omega)]
      have := ih (k + 1) ((k, nid0 + k) :: idMap)
        (rows ++ [⟨nid0 + k,
          nd.parent_idx.bind (fun p => if p < k then some (nid0 + p) else none),
          nd.name_stored, nd.is_dir, nd.size, job_id, nd.mtime⟩]) hmap'
      rw [show nid0 + (k + 1) = nid0 + k + 1 by omega] at this
      rw [this]
      simp only [commitRows, List.append_assoc, List.singleton_append,
        List.length_cons, Prod.mk.injEq]
      exact ⟨trivial, by omega⟩

lemma commitRows_getElem? (nid0 job_id : Nat) (ns : List NodeRecord) :
    ∀ k t, (commitRows nid0 job_id k ns)[t]?
      = (ns[t]?).map (fun nd =>
          (⟨nid0 + (k + t),
            nd.parent_idx.bind (fun p => if p < k + t then some (nid0 + p) else none),
            nd.name_stored, nd.is_dir, nd.size, job_id, nd.mtime⟩ : InsertedNode)) := by
  induction ns with
  | nil => intro k t; simp [commitRows]
  | cons nd rest ih =>
      intro k t
      cases t with
      | zero => simp [commitRows]
      | succ t' =>
          simp only [commitRows, List.getElem?_cons_succ]
          rw [ih (k + 1) t']
          rw [show k + 1 + t' = k + (t' + 1) by omega]

/-- C6: in the staged node list, every non-null parent position strictly
precedes the child's position, and the in-order commit therefore resolves
every staged parent position to the durable id already generated for that
earlier node (`nextRowId + p`), nodes without a parent being inserted with
a null parent. -/
theorem C6_parent_position_invariant (all_items items_for_archive : List Entry)
    (key : Option (String → String)) (nextRowId job_id : Nat) :
    (∀ (i p : Nat) (nd : NodeRecord),
        ((_build_nodes_and_manifest all_items items_for_archive key).1)[i]?
            = some nd →
        nd.parent_idx = some p → p < i)
    ∧ (∀ (i : Nat) (nd : NodeRecord),
        ((_build_nodes_and_manifest all_items items_for_archive key).1)[i]?
            = some nd →
        ((_commit_file_index nextRowId job_id
            (_build_nodes_and_manifest all_items items_for_archive key).1).1)[i]?
          = some ⟨nextRowId + i, nd.parent_idx.map (fun p => nextRowId + p),
              nd.name_stored, nd.is_dir, nd.size, job_id, nd.mtime⟩) := by
  have hnodes : (_build_nodes_and_manifest all_items items_for_archive key).1
      = ((items_for_archive.insertionSort
            (fun a b => strLeB a.arcname b.arcname = true)).foldl
          (buildNodesStep key) ([], [])).2 := rfl
  have hb := build_fold_parent_lt key
    (items_for_archive.insertionSort (fun a b => strLeB a.arcname b.arcname = true))
    [] [] (by intro p hp; simp at hp) (by intro i p nd h; simp at h)
  have hpart1 : ∀ (i p : Nat) (nd : NodeRecord),
      ((_build_nodes_and_manifest all_items items_for_archive key).1)[i]?
          = some nd → nd.parent_idx = some p → p < i := by
    rw [hnodes]
    exact hb.2
  refine ⟨hpart1, ?_⟩
  intro i nd hget
  set nodes := (_build_nodes_and_manifest all_items items_for_archive key).1
    with hnodes_def
  have hc := commit_foldl_spec job_id nextRowId nodes 0 [] []
    (by intro j; simp)
  simp only [Nat.add_zero, List.nil_append] at hc
  have hcommit : (_commit_file_index nextRowId job_id nodes).1
      = commitRows nextRowId job_id 0 nodes := by
    unfold _commit_file_index
    rw [show nodes.enum = List.enumFrom 0 nodes from rfl, hc]
  rw [hcommit, commitRows_getElem? nextRowId job_id nodes 0 i, hget]
  have hbind : nd.parent_idx.bind
      (fun p => if p < i then some (nextRowId + p) else none)
      = nd.parent_idx.map (fun p => nextRowId + p) := by
    cases hp : nd.parent_idx with
    | none => rfl
    | some p =>
        have hlt : p < i := hpart1 i p nd hget hp
        simp [hlt]
  exact congrArg some (by rw [Nat.zero_add]; simp only [hbind])

/-- Concrete entries for the C6 witness: a directory and one child file. -/
def exItemsC6 : List Entry :=
  [⟨"/r/d", "d", true, 0, 0⟩, ⟨"/r/d/f", "d/f", false, 5, 3⟩]

/-- The staged record the C6 witness expects at position 1. -/
def exNodeC6 : NodeRecord := ⟨some 0, "f", false, 5, 3⟩

theorem C6_parent_position_invariant_witness :
    ((_build_nodes_and_manifest exItemsC6 exItemsC6 none).1)[1]? = some exNodeC6
    ∧ 0 < 1
    ∧ ((_commit_file_index 7 9
          (_build_nodes_and_manifest exItemsC6 exItemsC6 none).1).1)[1]?
        = some ⟨7 + 1, exNodeC6.parent_idx.map (fun p => 7 + p),
            exNodeC6.name_stored, exNodeC6.is_dir, exNodeC6.size, 9,
            exNodeC6.mtime⟩ :=
  ⟨by decide,
   (C6_parent_position_invariant exItemsC6 exItemsC6 none 7 9).1 1 0 exNodeC6
     (by decide) (by decide),
   (C6_parent_position_invariant exItemsC6 exItemsC6 none 7 9).2 1 exNodeC6
     (by decide)⟩

/-- Concrete scan and snapshot for the C3 witness, following the spec's
example: A unchanged, B grown from 100 to 150 bytes, C new. -/
def exSnapC3 : List (String × SnapEntry) := [("A", ⟨100, 5⟩), ("B", ⟨100, 5⟩)]

/-- Current scan for the C3 witness. -/
def exItemsC3 : List Entry :=
  [⟨"/r/A", "A", false, 100, 5⟩, ⟨"/r/B", "B", false, 150, 5⟩,
   ⟨"/r/C", "C", false, 7, 9⟩]

theorem C3_filter_changed_diff_witness :
    (_filter_changed exItemsC3 exSnapC3).2.new
        = exItemsC3.countP (newFileB exSnapC3)
    ∧ (_filter_changed exItemsC3 exSnapC3).2 = ⟨1, 1, 1⟩
    ∧ (_filter_changed exItemsC3 exSnapC3).1
        = [⟨"/r/B", "B", false, 150, 5⟩, ⟨"/r/C", "C", false, 7, 9⟩] :=
  ⟨(C3_filter_changed_diff exItemsC3 exSnapC3).2.1, by decide, by decide⟩

/-! ## Backup pipeline (`backup.py`, `run_backup_job`, and `db.py`) -/

/-- One row of the `jobs` table (db.py lines 24-37; timestamps omitted). -/
structure Job where
  job_id      : Nat
  action      : String
  backup_type : String
  status      : String
  iv_hex      : Option String
  tag_hex     : Option String
  size        : Nat
deriving Repr, DecidableEq

/-- The on-tape JSON manifest built in `run_backup_job` (backup.py lines
344-354; `total_size` is filled in before the manifest is persisted). -/
structure Manifest where
  job_id      : Nat
  backup_type : String
  encrypted   : Bool
  iv_hex      : Option String
  tag_hex     : Option String
  files       : List ManifestFile
  total_size  : Nat
deriving Repr, DecidableEq

/-- The database/tape state a backup run mutates, restricted to one tape:
job rows, the tape's node table, its used capacity, the manifests on the
medium, and a count of `os.urandom` IV generations (so that "no key
material is created" is observable). -/
structure DBState where
  jobs         : List Job
  nextJobId    : Nat
  nodes        : List InsertedNode
  nextNodeId   : Nat
  used         : Nat
  manifests    : List Manifest
  ivsGenerated : Nat
deriving Repr, DecidableEq

/-- `db.new_job` (db.py lines 87-94): insert a RUNNING row with size 0 and
no tag, returning the generated job id. -/
def new_job (st : DBState) (action : String) (iv_hex : Option String)
    (backup_type : String) : Nat × DBState :=
  (st.nextJobId,
   { st with
      jobs := st.jobs ++ [⟨st.nextJobId, action, backup_type, "RUNNING",
        iv_hex, none, 0⟩],
      nextJobId := st.nextJobId + 1 })

/-- `db.finish_job` (db.py lines 96-101): set status, size and tag of the
matching job row. -/
def finish_job (st : DBState) (job_id : Nat) (status : String) (size : Nat)
    (tag_hex : Option String) : DBState :=
  { st with
      jobs := st.jobs.map (fun j =>
        if j.job_id = job_id then
          { j with status := status, size := size, tag_hex := tag_hex }
        else j) }

/-- `db.update_used_capacity` (db.py lines 119-124). -/
def update_used_capacity (st : DBState) (size_increment : Nat) : DBState :=
  { st with used := st.used + size_increment }

/-- The capacity pre-check estimate (backup.py lines 318-321):
`int(sum(non-directory sizes) * 1.02)`.  The float factor 1.02 is modelled
as exact multiplication by 102/100 with truncation. -/
def writeSizeEstimate (items : List Entry) : Nat :=
  (items.foldl (fun s e => if e.isDir then s else s + e.size) 0) * 102 / 100

/-- The exceptions `run_backup_job` can raise in the modelled (FULL) path:
the capacity error of backup.py lines 326-331, carrying the estimated
write and the remaining capacity it reports, and a stream-write failure
injected at step 7 (the `try` block). -/
inductive BackupError where
  | insufficientSpace (estimatedWrite : Nat) (available : Int)
  | streamWriteFailure
deriving Repr, DecidableEq

/-- Embedding of `run_backup_job` (backup.py lines 257-405) on the FULL
path (`items_for_archive = all_items`; the incremental selection is
`_filter_changed`, embedded separately).  Oracle inputs stand for machine
effects: `ivHex` the `os.urandom(12).hex()` value, `tagHex` the GCM tag
(or SHA-256 digest) produced at stream finalisation, `max_cap` the
generation's capacity, `streamOk` whether the archive streaming of step 7
succeeds, `writtenSize` the archive's on-tape size.  Returns the Python
result (`job_id` or the raised exception) together with the state the
call leaves behind. -/
def run_backup_job (st : DBState) (all_items : List Entry)
    (key : Option (String → String)) (ivHex tagHex : String) (max_cap : Nat)
    (streamOk : Bool) (writtenSize : Nat) :
    Except BackupError Nat × DBState :=
  let items_for_archive := all_items
  let write_size_estimate := writeSizeEstimate items_for_archive
  let used := st.used
  if used + write_size_estimate > max_cap then
    (.error (.insufficientSpace write_size_estimate
        ((max_cap : Int) - (used : Int))), st)
  else
    let iv_hex : Option String := if key.isSome then some ivHex else none
    let st1 : DBState :=
      { st with ivsGenerated :=
          st.ivsGenerated + (if key.isSome then 1 else 0) }
    let jres := new_job st1 "BACKUP" iv_hex "FULL"
    let job_id := jres.1
    let st2 := jres.2
    let bres := _build_nodes_and_manifest all_items items_for_archive key
    let nodes := bres.1
    let manifest_files := bres.2
    if streamOk then
      let tag_hex : Option String := some tagHex
      let cres := _commit_file_index st2.nextNodeId job_id nodes
      let st3 := { st2 with nodes := st2.nodes ++ cres.1, nextNodeId := cres.2 }
      let job_manifest : Manifest :=
        ⟨job_id, "FULL", key.isSome, iv_hex, tag_hex, manifest_files,
         writtenSize⟩
      let st4 := { st3 with manifests := st3.manifests ++ [job_manifest] }
      let st5 := update_used_capacity st4 writtenSize
      let st6 := finish_job st5 job_id "SUCCESS" writtenSize tag_hex
      (.ok job_id, st6)
    else
      (.error .streamWriteFailure, finish_job st2 job_id "FAILED" 0 none)

lemma finish_map_fresh (jobs : List Job) (jid : Nat) (status : String)
    (size : Nat) (tag : Option String) (h : ∀ j ∈ jobs, j.job_id ≠ jid) :
    jobs.map (fun j =>
      if j.job_id = jid then
        { j with status := status, size := size, tag_hex := tag }
      else j) = jobs := by
  induction jobs with
  | nil => rfl
  | cons j t ih =>
      simp only [List.map_cons]
      rw [if_neg (h j (List.mem_cons_self j t)), ih]
      intro j' hj'
      exact h j' (List.mem_cons_of_mem j hj')

/-- C5: when the 1.02-inflated estimate does not fit in the remaining
capacity, `run_backup_job` raises the capacity error carrying the
estimate and the remaining capacity (which determine the shortfall), and
returns the state entirely unchanged: no job row, no IV generation, no
archive write, nothing. -/
theorem C5_capacity_gate_precedes_mutation (st : DBState)
    (all_items : List Entry) (key : Option (String → String))
    (ivHex tagHex : String) (max_cap : Nat) (streamOk : Bool)
    (writtenSize : Nat)
    (h : st.used + writeSizeEstimate all_items > max_cap) :
    run_backup_job st all_items key ivHex tagHex max_cap streamOk writtenSize
      = (.error (.insufficientSpace (writeSizeEstimate all_items)
          ((max_cap : Int) - (st.used : Int))), st)
    ∧ (max_cap : Int) - (st.used : Int) < (writeSizeEstimate all_items : Int) := by
  constructor
  · simp only [run_backup_job]
    rw [if_pos h]
  · omega

/-- Concrete initial state for the backup witnesses: empty database. -/
def st0B : DBState := ⟨[], 1, [], 1, 0, [], 0⟩

/-- Concrete scan for the backup witnesses: one 100-byte file. -/
def itemsB : List Entry := [⟨"/r/a.txt", "a.txt", false, 100, 0⟩]

theorem C5_capacity_gate_precedes_mutation_witness :
    st0B.used + writeSizeEstimate itemsB > 50
    ∧ run_backup_job st0B itemsB none "0011" "beef" 50 true 0
        = (.error (.insufficientSpace (writeSizeEstimate itemsB)
            ((50 : Int) - (st0B.used : Int))), st0B) :=
  ⟨by decide,
   (C5_capacity_gate_precedes_mutation st0B itemsB none "0011" "beef" 50
      true 0 (by decide)).1⟩

lemma run_backup_fail_state (st : DBState) (all_items : List Entry)
    (key : Option (String → String)) (ivHex tagHex : String)
    (max_cap writtenSize : Nat)
    (hcap : ¬(st.used + writeSizeEstimate all_items > max_cap))
    (hfresh : ∀ j ∈ st.jobs, j.job_id < st.nextJobId) :
    run_backup_job st all_items key ivHex tagHex max_cap false writtenSize
      = (.error .streamWriteFailure,
         { st with
            ivsGenerated := st.ivsGenerated + (if key.isSome then 1 else 0),
            nextJobId := st.nextJobId + 1,
            jobs := st.jobs ++ [⟨st.nextJobId, "BACKUP", "FULL", "FAILED",
              (if key.isSome then some ivHex else none), none, 0⟩] }) := by
  simp only [run_backup_job, new_job, finish_job, Bool.false_eq_true,
    if_false]
  rw [if_neg hcap]
  congr 1
  simp only [List.map_append, List.map_cons, List.map_nil]
  rw [finish_map_fresh st.jobs st.nextJobId "FAILED" 0 none
    (fun j hj => Nat.ne_of_lt (hfresh j hj))]
  simp

/-- C1: if the archive streaming step fails after the job row was created,
the run re-raises the failure, the job row is finalised FAILED, and the
node table, manifests and used capacity are untouched — in particular the
index holds zero nodes for the failed job id. -/
theorem C1_stream_failure_leaves_index_clean (st : DBState)
    (all_items : List Entry) (key : Option (String → String))
    (ivHex tagHex : String) (max_cap writtenSize : Nat)
    (hcap : ¬(st.used + writeSizeEstimate all_items > max_cap))
    (hfresh : ∀ j ∈ st.jobs, j.job_id < st.nextJobId)
    (hnodes : ∀ n ∈ st.nodes, n.job_id < st.nextJobId) :
    (run_backup_job st all_items key ivHex tagHex max_cap false
        writtenSize).1 = .error .streamWriteFailure
    ∧ (run_backup_job st all_items key ivHex tagHex max_cap false
        writtenSize).2.nodes = st.nodes
    ∧ (∀ n ∈ (run_backup_job st all_items key ivHex tagHex max_cap false
        writtenSize).2.nodes, n.job_id ≠ st.nextJobId)
    ∧ (run_backup_job st all_items key ivHex tagHex max_cap false
        writtenSize).2.manifests = st.manifests
    ∧ (run_backup_job st all_items key ivHex tagHex max_cap false
        writtenSize).2.used = st.used
    ∧ (run_backup_job st all_items key ivHex tagHex max_cap false
        writtenSize).2.jobs
        = st.jobs ++ [⟨st.nextJobId, "BACKUP", "FULL", "FAILED",
            (if key.isSome then some ivHex else none), none, 0⟩] := by
  rw [run_backup_fail_state st all_items key ivHex tagHex max_cap
    writtenSize hcap hfresh]
  refine ⟨rfl, rfl, ?_, rfl, rfl, rfl⟩
  intro n hn
  exact Nat.ne_of_lt (hnodes n hn)

theorem C1_stream_failure_leaves_index_clean_witness :
    (run_backup_job st0B itemsB none "0011" "beef" 1000000 false 0).1
        = .error .streamWriteFailure
    ∧ (run_backup_job st0B itemsB none "0011" "beef" 1000000 false 0).2.nodes
        = st0B.nodes
    ∧ (run_backup_job st0B itemsB none "0011" "beef" 1000000 false 0).2.jobs
        = st0B.jobs ++ [⟨st0B.nextJobId, "BACKUP", "FULL", "FAILED", none,
            none, 0⟩] :=
  ⟨(C1_stream_failure_leaves_index_clean st0B itemsB none "0011" "beef"
      1000000 0 (by decide) (by decide) (by decide)).1,
   (C1_stream_failure_leaves_index_clean st0B itemsB none "0011" "beef"
      1000000 0 (by decide) (by decide) (by decide)).2.1,
   by decide⟩

/-! ## Verification engine (`verify.py`, `verify_tape_integrity`) -/

/-- The SELECT of verify.py lines 10-14: SUCCESS backup jobs of the tape. -/
def selectedJobs (st : DBState) : List Job :=
  st.jobs.filter (fun j => j.status == "SUCCESS" && j.action == "BACKUP")

/-- The per-job check of verify.py lines 24-78, producing the verdict
string appended to `results`.  The stream outcomes are oracles: `aeadOk`
states whether AES-GCM finalisation over the job's stored bytes with its
stored iv/tag/key succeeds (`DecryptionReader` raising inside the `try`
yields CORRUPTED, and so does `bytes.fromhex(None)` when the tag is
missing); `computedHash` is the hex digest `HashReader` computes over the
stored bytes.  I/O over the stored bytes is modelled as reliable. -/
def checkJob (key : Option String) (aeadOk : Bool) (computedHash : String)
    (j : Job) : String :=
  let is_encrypted := j.iv_hex.isSome
  if is_encrypted && key.isNone then "SKIPPED"
  else if is_encrypted then
    match j.tag_hex with
    | none => "CORRUPTED"
    | some _ => if aeadOk then "PASSED" else "CORRUPTED"
  else
    match j.tag_hex with
    | none => "CORRUPTED"
    | some t => if computedHash == t then "PASSED" else "CORRUPTED"

/-- Aggregate outcome of verify.py lines 81-87. -/
def overallVerdict (statuses : List String) : String :=
  if "CORRUPTED" ∈ statuses then "FAILED"
  else if statuses.all (fun s => s == "PASSED") then "SUCCESS"
  else "PARTIAL"

/-- Embedding of `verify_tape_integrity` (verify.py lines 7-91): if no
SUCCESS backup job exists, return without creating a VERIFY row; else
create the VERIFY row, check every job, and finalise the VERIFY row with
the aggregate verdict.  Returns the final state and the results list. -/
def verify_tape_integrity (st : DBState) (key : Option String)
    (aeadOk : Nat → Bool) (computedHash : Nat → String) :
    DBState × List (Nat × String) :=
  let jobs := selectedJobs st
  if jobs = [] then (st, [])
  else
    let vres := new_job st "VERIFY" none "N/A"
    let verify_job_id := vres.1
    let st1 := vres.2
    let results := jobs.map (fun j =>
      (j.job_id, checkJob key (aeadOk j.job_id) (computedHash j.job_id) j))
    let statuses := results.map (fun r => r.2)
    let overall := overallVerdict statuses
    (finish_job st1 verify_job_id overall 0 none, results)

lemma overallVerdict_spec (statuses : List String) :
    (overallVerdict statuses = "FAILED" ↔ "CORRUPTED" ∈ statuses)
    ∧ (overallVerdict statuses = "SUCCESS" ↔ ∀ s ∈ statuses, s = "PASSED")
    ∧ (overallVerdict statuses = "PARTIAL" ↔
        ("CORRUPTED" ∉ statuses ∧ ¬(∀ s ∈ statuses, s = "PASSED"))) := by
  unfold overallVerdict
  by_cases hc : "CORRUPTED" ∈ statuses
  · rw [if_pos hc]
    refine ⟨by simp [hc], ?_, ?_⟩
    · constructor
      · intro he
        exact absurd he (by decide)
      · intro hall
        exact absurd (hall _ hc) (by decide)
    · constructor
      · intro he
        exact absurd he (by decide)
      · intro ⟨hnc, _⟩
        exact absurd hc hnc
  · rw [if_neg hc]
    by_cases ha : statuses.all (fun s => s == "PASSED") = true
    · rw [if_pos ha]
      have hall : ∀ s ∈ statuses, s = "PASSED" := by
        intro s hs
        have := List.all_eq_true.mp ha s hs
        exact eq_of_beq this
      refine ⟨?_, ⟨fun _ => hall, fun _ => rfl⟩, ?_⟩
      · constructor
        · intro he
          exact absurd he (by decide)
        · intro hmem
          exact absurd hmem hc
      · constructor
        · intro he
          exact absurd he (by decide)
        · intro ⟨_, hna⟩
          exact absurd hall hna
    · rw [if_neg ha]
      have hnall : ¬(∀ s ∈ statuses, s = "PASSED") := by
        intro hall
        apply ha
        apply List.all_eq_true.mpr
        intro s hs
        exact beq_iff_eq.mpr (hall s hs)
      refine ⟨?_, ?_, by simp [hc, hnall]⟩
      · constructor
        · intro he
          exact absurd he (by decide)
        · intro hmem
          exact absurd hmem hc
      · constructor
        · intro he
          exact absurd he (by decide)
        · intro hall
          exact absurd hall hnall

lemma checkJob_spec (key : Option String) (aeadOk : Bool)
    (computedHash : String) (j : Job) :
    (j.iv_hex.isSome = true → key = none →
        checkJob key aeadOk computedHash j = "SKIPPED")
    ∧ (j.iv_hex.isSome = true → key.isSome = true →
        (checkJob key aeadOk computedHash j = "PASSED"
          ↔ (j.tag_hex.isSome = true ∧ aeadOk = true)))
    ∧ (j.iv_hex.isSome = true → key.isSome = true →
        checkJob key aeadOk computedHash j ≠ "PASSED" →
        checkJob key aeadOk computedHash j = "CORRUPTED")
    ∧ (j.iv_hex = none →
        (checkJob key aeadOk computedHash j = "PASSED"
          ↔ j.tag_hex = some computedHash))
    ∧ (j.iv_hex = none → checkJob key aeadOk computedHash j ≠ "PASSED" →
        checkJob key aeadOk computedHash j = "CORRUPTED") := by
  refine ⟨?_, ?_, ?_, ?_, ?_⟩
  · intro hiv hk
    simp [checkJob, hiv, hk]
  · intro hiv hkey
    have hkn : key.isNone = false := by
      cases key
      · simp at hkey
      · rfl
    cases ht : j.tag_hex with
    | none =>
        have hval : checkJob key aeadOk computedHash j = "CORRUPTED" := by
          simp [checkJob, hiv, hkn, ht]
        rw [hval]
        exact ⟨fun he => absurd he (by decide),
          fun hc => absurd hc.1 (by decide)⟩
    | some t =>
        cases aeadOk with
        | true =>
            have hval : checkJob key true computedHash j = "PASSED" := by
              simp [checkJob, hiv, hkn, ht]
            rw [hval]
            exact ⟨fun _ => ⟨rfl, rfl⟩, fun _ => rfl⟩
        | false =>
            have hval : checkJob key false computedHash j = "CORRUPTED" := by
              simp [checkJob, hiv, hkn, ht]
            rw [hval]
            exact ⟨fun he => absurd he (by decide),
              fun hc => absurd hc.2 (by decide)⟩
  · intro hiv hkey hne
    have hkn : key.isNone = false := by
      cases key
      · simp at hkey
      · rfl
    cases ht : j.tag_hex with
    | none =>
        simp [checkJob, hiv, hkn, ht]
    | some t =>
        cases aeadOk with
        | true =>
            have hval : checkJob key true computedHash j = "PASSED" := by
              simp [checkJob, hiv, hkn, ht]
            exact absurd hval hne
        | false =>
            simp [checkJob, hiv, hkn, ht]
  · intro hiv
    cases ht : j.tag_hex with
    | none =>
        have hval : checkJob key aeadOk computedHash j = "CORRUPTED" := by
          simp [checkJob, hiv, ht]
        rw [hval]
        exact ⟨fun he => absurd he (by decide), fun he => Option.noConfusion he⟩
    | some t =>
        cases hh : computedHash == t with
        | true =>
            have heq : computedHash = t := eq_of_beq hh
            subst heq
            have hval : checkJob key aeadOk computedHash j = "PASSED" := by
              simp [checkJob, hiv, ht]
            rw [hval]
            simp
        | false =>
            have hval : checkJob key aeadOk computedHash j = "CORRUPTED" := by
              simp [checkJob, hiv, ht, hh]
            rw [hval]
            refine ⟨fun he => absurd he (by decide), fun he => ?_⟩
            injection he with h1
            rw [h1] at hh
            simp at hh
  · intro hiv hne
    cases ht : j.tag_hex with
    | none =>
        simp [checkJob, hiv, ht]
    | some t =>
        cases hh : computedHash == t with
        | true =>
            have hval : checkJob key aeadOk computedHash j = "PASSED" := by
              simp [checkJob, hiv, ht, hh]
            exact absurd hval hne
        | false =>
            simp [checkJob, hiv, ht, hh]

lemma verify_results_eq (st : DBState) (key : Option String)
    (aeadOk : Nat → Bool) (computedHash : Nat → String)
    (hne : selectedJobs st ≠ []) :
    (verify_tape_integrity st key aeadOk computedHash).2
      = (selectedJobs st).map (fun j =>
          (j.job_id, checkJob key (aeadOk j.job_id) (computedHash j.job_id) j)) := by
  simp only [verify_tape_integrity]
  rw [if_neg hne]

lemma verify_finalizes (st : DBState) (key : Option String)
    (aeadOk : Nat → Bool) (computedHash : Nat → String)
    (hne : selectedJobs st ≠ [])
    (hfresh : ∀ j ∈ st.jobs, j.job_id < st.nextJobId) :
    (verify_tape_integrity st key aeadOk computedHash).1.jobs
      = st.jobs ++ [⟨st.nextJobId, "VERIFY", "N/A",
          overallVerdict ((selectedJobs st).map (fun j =>
            checkJob key (aeadOk j.job_id) (computedHash j.job_id) j)),
          none, none, 0⟩] := by
  simp only [verify_tape_integrity]
  rw [if_neg hne]
  simp only [new_job, finish_job, List.map_append, List.map_cons,
    List.map_nil, List.map_map]
  rw [finish_map_fresh st.jobs st.nextJobId _ 0 none
    (fun j hj => Nat.ne_of_lt (hfresh j hj))]
  simp
  rfl

/-- C4: per-job verdicts — an encrypted job (stored IV present) is SKIPPED
without a key and otherwise PASSED exactly when AEAD finalisation over its
stored bytes succeeds; a plaintext job is PASSED exactly when the
recomputed digest equals the recorded one, and CORRUPTED on mismatch or a
missing recorded digest — and the VERIFY job row is finalised with the
aggregate: FAILED iff some verdict is CORRUPTED, SUCCESS iff all verdicts
are PASSED, PARTIAL otherwise. -/
theorem C4_verify_verdicts_and_aggregate (st : DBState) (key : Option String)
    (aeadOk : Nat → Bool) (computedHash : Nat → String)
    (hne : selectedJobs st ≠ [])
    (hfresh : ∀ j ∈ st.jobs, j.job_id < st.nextJobId) :
    (verify_tape_integrity st key aeadOk computedHash).2
      = (selectedJobs st).map (fun j =>
          (j.job_id, checkJob key (aeadOk j.job_id) (computedHash j.job_id) j))
    ∧ (∀ j ∈ selectedJobs st,
        (j.iv_hex.isSome = true → key = none →
          checkJob key (aeadOk j.job_id) (computedHash j.job_id) j
            = "SKIPPED")
        ∧ (j.iv_hex.isSome = true → key.isSome = true →
            (checkJob key (aeadOk j.job_id) (computedHash j.job_id) j
                = "PASSED"
              ↔ (j.tag_hex.isSome = true ∧ aeadOk j.job_id = true)))
        ∧ (j.iv_hex = none →
            (checkJob key (aeadOk j.job_id) (computedHash j.job_id) j
                = "PASSED"
              ↔ j.tag_hex = some (computedHash j.job_id)))
        ∧ (j.iv_hex = none →
            checkJob key (aeadOk j.job_id) (computedHash j.job_id) j
              ≠ "PASSED" →
            checkJob key (aeadOk j.job_id) (computedHash j.job_id) j
              = "CORRUPTED"))
    ∧ (verify_tape_integrity st key aeadOk computedHash).1.jobs
      = st.jobs ++ [⟨st.nextJobId, "VERIFY", "N/A",
          overallVerdict ((selectedJobs st).map (fun j =>
            checkJob key (aeadOk j.job_id) (computedHash j.job_id) j)),
          none, none, 0⟩]
    ∧ ((overallVerdict ((selectedJobs st).map (fun j =>
          checkJob key (aeadOk j.job_id) (computedHash j.job_id) j))
            = "FAILED"
        ↔ "CORRUPTED" ∈ (selectedJobs st).map (fun j =>
            checkJob key (aeadOk j.job_id) (computedHash j.job_id) j))
      ∧ (overallVerdict ((selectedJobs st).map (fun j =>
            checkJob key (aeadOk j.job_id) (computedHash j.job_id) j))
            = "SUCCESS"
          ↔ ∀ s ∈ (selectedJobs st).map (fun j =>
              checkJob key (aeadOk j.job_id) (computedHash j.job_id) j),
              s = "PASSED")
      ∧ (overallVerdict ((selectedJobs st).map (fun j =>
            checkJob key (aeadOk j.job_id) (computedHash j.job_id) j))
            = "PARTIAL"
          ↔ ("CORRUPTED" ∉ (selectedJobs st).map (fun j =>
                checkJob key (aeadOk j.job_id) (computedHash j.job_id) j)
             ∧ ¬(∀ s ∈ (selectedJobs st).map (fun j =>
                  checkJob key (aeadOk j.job_id) (computedHash j.job_id) j),
                  s = "PASSED")))) := by
  refine ⟨verify_results_eq st key aeadOk computedHash hne, ?_,
    verify_finalizes st key aeadOk computedHash hne hfresh,
    overallVerdict_spec _⟩
  intro j hj
  have hc := checkJob_spec key (aeadOk j.job_id) (computedHash j.job_id) j
  exact ⟨hc.1, hc.2.1, hc.2.2.2.1, hc.2.2.2.2⟩

/-- C10: with every SUCCESS backup job on the tape encrypted and no key
supplied, every per-job verdict is SKIPPED and the VERIFY job is finalised
PARTIAL — never SUCCESS, never FAILED. -/
theorem C10_all_skipped_aggregate (st : DBState)
    (aeadOk : Nat → Bool) (computedHash : Nat → String)
    (hne : selectedJobs st ≠ [])
    (henc : ∀ j ∈ selectedJobs st, j.iv_hex.isSome = true)
    (hfresh : ∀ j ∈ st.jobs, j.job_id < st.nextJobId) :
    (∀ r ∈ (verify_tape_integrity st none aeadOk computedHash).2,
        r.2 = "SKIPPED")
    ∧ overallVerdict ((selectedJobs st).map (fun j =>
        checkJob none (aeadOk j.job_id) (computedHash j.job_id) j))
        = "PARTIAL"
    ∧ overallVerdict ((selectedJobs st).map (fun j =>
        checkJob none (aeadOk j.job_id) (computedHash j.job_id) j))
        ≠ "SUCCESS"
    ∧ overallVerdict ((selectedJobs st).map (fun j =>
        checkJob none (aeadOk j.job_id) (computedHash j.job_id) j))
        ≠ "FAILED"
    ∧ (verify_tape_integrity st none aeadOk computedHash).1.jobs
      = st.jobs ++ [⟨st.nextJobId, "VERIFY", "N/A", "PARTIAL",
          none, none, 0⟩] := by
  have hskip : ∀ j ∈ selectedJobs st,
      checkJob none (aeadOk j.job_id) (computedHash j.job_id) j
        = "SKIPPED" :=
    fun j hj =>
      (checkJob_spec none (aeadOk j.job_id) (computedHash j.job_id) j).1
        (henc j hj) rfl
  have hmem : "CORRUPTED" ∉ (selectedJobs st).map (fun j =>
      checkJob none (aeadOk j.job_id) (computedHash j.job_id) j) := by
    intro hmem
    rcases List.mem_map.mp hmem with ⟨j, hj, hjeq⟩
    rw [hskip j hj] at hjeq
    exact absurd hjeq (by decide)
  have hnall : ¬(∀ s ∈ (selectedJobs st).map (fun j =>
      checkJob none (aeadOk j.job_id) (computedHash j.job_id) j),
      s = "PASSED") := by
    intro hall
    cases hsel : selectedJobs st with
    | nil => exact absurd hsel hne
    | cons j t =>
        have hjmem : j ∈ selectedJobs st := by
          rw [hsel]
          exact List.mem_cons_self j t
        have hj1 := hall _ (List.mem_map_of_mem _ hjmem)
        rw [hskip j hjmem] at hj1
        exact absurd hj1 (by decide)
  have hnall' : ¬((((selectedJobs st).map (fun j =>
      checkJob none (aeadOk j.job_id) (computedHash j.job_id) j)).all
        (fun s => s == "PASSED")) = true) := by
    intro ha
    exact hnall (fun s hs => eq_of_beq (List.all_eq_true.mp ha s hs))
  have hpstat : overallVerdict ((selectedJobs st).map (fun j =>
      checkJob none (aeadOk j.job_id) (computedHash j.job_id) j))
      = "PARTIAL" := by
    unfold overallVerdict
    rw [if_neg hmem, if_neg hnall']
  refine ⟨?_, hpstat, by rw [hpstat]; decide, by rw [hpstat]; decide, ?_⟩
  · intro r hr
    rw [verify_results_eq st none aeadOk computedHash hne] at hr
    rcases List.mem_map.mp hr with ⟨j, hj, hjeq⟩
    rw [← hjeq]
    exact hskip j hj
  · rw [verify_finalizes st none aeadOk computedHash hne hfresh, hpstat]

/-- Concrete state for the C4 witness: one SUCCESS plaintext backup job
whose recorded digest matches the recomputed one. -/
def stC4 : DBState :=
  ⟨[⟨1, "BACKUP", "FULL", "SUCCESS", none, some "abcd", 100⟩], 2, [], 1,
   100, [], 0⟩

theorem C4_verify_verdicts_and_aggregate_witness :
    selectedJobs stC4 ≠ []
    ∧ (verify_tape_integrity stC4 none (fun _ => true) (fun _ => "abcd")).2
        = (selectedJobs stC4).map (fun j =>
            (j.job_id, checkJob none ((fun _ => true) j.job_id)
              ((fun _ => "abcd") j.job_id) j))
    ∧ overallVerdict ((selectedJobs stC4).map (fun j =>
        checkJob none ((fun _ => true) j.job_id)
          ((fun _ => "abcd") j.job_id) j)) = "SUCCESS" :=
  ⟨by decide,
   (C4_verify_verdicts_and_aggregate stC4 none (fun _ => true)
      (fun _ => "abcd") (by decide) (by decide)).1,
   by decide⟩

/-- Concrete state for the C10 witness: one SUCCESS encrypted backup job
(stored IV present), verify run without a key. -/
def stC10 : DBState :=
  ⟨[⟨1, "BACKUP", "FULL", "SUCCESS", some "00", some "aa", 100⟩], 2, [], 1,
   100, [], 0⟩

theorem C10_all_skipped_aggregate_witness :
    selectedJobs stC10 ≠ []
    ∧ overallVerdict ((selectedJobs stC10).map (fun j =>
        checkJob none ((fun _ => true) j.job_id)
          ((fun _ => "aa") j.job_id) j)) = "PARTIAL"
    ∧ (verify_tape_integrity stC10 none (fun _ => true) (fun _ => "aa")).1.jobs
        = stC10.jobs ++ [⟨stC10.nextJobId, "VERIFY", "N/A", "PARTIAL",
            none, none, 0⟩] :=
  ⟨by decide,
   (C10_all_skipped_aggregate stC10 (fun _ => true) (fun _ => "aa")
      (by decide) (by decide) (by decide)).2.1,
   (C10_all_skipped_aggregate stC10 (fun _ => true) (fun _ => "aa")
      (by decide) (by decide) (by decide)).2.2.2.2⟩

/-! ## Disaster recovery (`recovery.py`, `recover_database_from_tape`) -/

/-- The state disaster recovery reads and mutates, restricted to the one
tape being recovered: the tape row (existence, encrypted flag, used
capacity), this tape's job rows, and this tape's node table.  The job
lookup `WHERE job_id=? AND tape_id=?` becomes a lookup among this tape's
rows. -/
structure RecState where
  tapeExists    : Bool
  tapeEncrypted : Bool
  used          : Nat
  jobs          : List Job
  nodes         : List InsertedNode
  nextNodeId    : Nat
deriving Repr, DecidableEq

/-- `db.insert_node` as recovery uses it (recovery.py lines 81-88): a
node with a null parent, the manifest entry's name/flag/size, the owning
job id, and default mtime 0. -/
def insertNodeFlat (jid : Nat) (acc : RecState) (f : ManifestFile) :
    RecState :=
  { acc with
      nodes := acc.nodes ++ [⟨acc.nextNodeId, none, f.name, f.is_dir,
        f.size, jid, 0⟩],
      nextNodeId := acc.nextNodeId + 1 }

/-- Per-manifest body of the recovery loop (recovery.py lines 48-95).
`none` stands for a file whose JSON parse failed: it is skipped with a
warning.  A manifest whose job id already has a row is skipped.  Otherwise
the tape's encrypted flag is raised if the manifest declares encryption, a
SUCCESS BACKUP job row is inserted with the manifest's id, crypto fields
and size, and one node per manifest file entry is inserted with a null
parent (tree structure is flattened). -/
def recoverManifestStep (st : RecState) (mf : Option Manifest) : RecState :=
  match mf with
  | none => st
  | some meta =>
      if st.jobs.any (fun j => j.job_id == meta.job_id) then st
      else
        let st1 := if meta.encrypted then { st with tapeEncrypted := true }
          else st
        let st2 := { st1 with
          jobs := st1.jobs ++ [⟨meta.job_id, "BACKUP", "FULL", "SUCCESS",
            meta.iv_hex, meta.tag_hex, meta.total_size⟩] }
        meta.files.foldl (insertNodeFlat meta.job_id) st2

lemma insertFold_preserves (jid : Nat) (fs : List ManifestFile)
    (acc : RecState) :
    (fs.foldl (insertNodeFlat jid) acc).jobs = acc.jobs
    ∧ (fs.foldl (insertNodeFlat jid) acc).tapeExists = acc.tapeExists
    ∧ (fs.foldl (insertNodeFlat jid) acc).tapeEncrypted = acc.tapeEncrypted
    ∧ (fs.foldl (insertNodeFlat jid) acc).used = acc.used := by
  induction fs generalizing acc with
  | nil => exact ⟨rfl, rfl, rfl, rfl⟩
  | cons f t ih =>
      rw [List.foldl_cons]
      exact ih _

/-- Embedding of `recover_database_from_tape` (recovery.py lines 8-102):
return unchanged when no manifest file exists; create the tape row
(unencrypted, used 0) when absent; process every manifest through
`recoverManifestStep`; finally recompute the tape's used capacity as the
sum of its job sizes. -/
def recover_database_from_tape (st : RecState)
    (manifests : List (Option Manifest)) : RecState :=
  if manifests = [] then st
  else
    let st1 := if st.tapeExists then st
      else { st with tapeExists := true, tapeEncrypted := false, used := 0 }
    let st2 := manifests.foldl recoverManifestStep st1
    let total_used := st2.jobs.foldl (fun acc j => acc + j.size) 0
    { st2 with used := total_used }

lemma recoverStep_jobs_mono (st : RecState) (mf : Option Manifest)
    (j : Job) (hj : j ∈ st.jobs) : j ∈ (recoverManifestStep st mf).jobs := by
  cases mf with
  | none => exact hj
  | some meta =>
      simp only [recoverManifestStep]
      by_cases hex : st.jobs.any (fun j => j.job_id == meta.job_id) = true
      · rw [if_pos hex]
        exact hj
      · rw [if_neg hex]
        rw [(insertFold_preserves meta.job_id meta.files _).1]
        by_cases henc : meta.encrypted = true
        · simp only [henc, if_true]
          exact List.mem_append_left _ hj
        · simp only [henc, if_false, Bool.false_eq_true]
          exact List.mem_append_left _ hj

lemma recoverFold_jobs_mono (manifests : List (Option Manifest))
    (st : RecState) (j : Job) (hj : j ∈ st.jobs) :
    j ∈ (manifests.foldl recoverManifestStep st).jobs := by
  induction manifests generalizing st with
  | nil => exact hj
  | cons m t ih =>
      rw [List.foldl_cons]
      exact ih _ (recoverStep_jobs_mono st m j hj)

lemma recoverStep_covers (st : RecState) (meta : Manifest) :
    ∃ j ∈ (recoverManifestStep st (some meta)).jobs,
      j.job_id = meta.job_id := by
  simp only [recoverManifestStep]
  by_cases hex : st.jobs.any (fun j => j.job_id == meta.job_id) = true
  · rw [if_pos hex]
    rcases List.any_eq_true.mp hex with ⟨j, hj, hbeq⟩
    exact ⟨j, hj, eq_of_beq hbeq⟩
  · rw [if_neg hex]
    rw [(insertFold_preserves meta.job_id meta.files _).1]
    refine ⟨⟨meta.job_id, "BACKUP", "FULL", "SUCCESS", meta.iv_hex,
      meta.tag_hex, meta.total_size⟩, ?_, rfl⟩
    by_cases henc : meta.encrypted = true
    · simp only [henc, if_true]
      exact List.mem_append_right _ (List.mem_singleton_self _)
    · simp only [henc, if_false, Bool.false_eq_true]
      exact List.mem_append_right _ (List.mem_singleton_self _)

lemma recoverFold_covers (manifests : List (Option Manifest))
    (st : RecState) (meta : Manifest) (hm : some meta ∈ manifests) :
    ∃ j ∈ (manifests.foldl recoverManifestStep st).jobs,
      j.job_id = meta.job_id := by
  induction manifests generalizing st with
  | nil => simp at hm
  | cons m t ih =>
      rw [List.foldl_cons]
      rcases List.mem_cons.mp hm with heq | hmem
      · subst heq
        rcases recoverStep_covers st meta with ⟨j, hj, hid⟩
        exact ⟨j, recoverFold_jobs_mono t _ j hj, hid⟩
      · exact ih (recoverManifestStep st m) hmem

lemma recoverStep_skip (st : RecState) (meta : Manifest)
    (h : ∃ j ∈ st.jobs, j.job_id = meta.job_id) :
    recoverManifestStep st (some meta) = st := by
  simp only [recoverManifestStep]
  rcases h with ⟨j, hj, hid⟩
  have hb : (j.job_id == meta.job_id) = true := by simp [hid]
  rw [if_pos (List.any_eq_true.mpr ⟨j, hj, hb⟩)]

lemma recoverFold_noop (manifests : List (Option Manifest)) (st : RecState)
    (h : ∀ meta : Manifest, some meta ∈ manifests →
      ∃ j ∈ st.jobs, j.job_id = meta.job_id) :
    manifests.foldl recoverManifestStep st = st := by
  induction manifests with
  | nil => rfl
  | cons m t ih =>
      rw [List.foldl_cons]
      cases m with
      | none =>
          rw [show recoverManifestStep st none = st from rfl]
          exact ih (fun meta hm => h meta (List.mem_cons_of_mem _ hm))
      | some meta =>
          rw [recoverStep_skip st meta (h meta (List.mem_cons_self _ _))]
          exact ih (fun meta hm => h meta (List.mem_cons_of_mem _ hm))

lemma recoverStep_tapeExists (st : RecState) (mf : Option Manifest) :
    (recoverManifestStep st mf).tapeExists = st.tapeExists := by
  cases mf with
  | none => rfl
  | some meta =>
      simp only [recoverManifestStep]
      by_cases hex : st.jobs.any (fun j => j.job_id == meta.job_id) = true
      · rw [if_pos hex]
      · rw [if_neg hex]
        rw [(insertFold_preserves meta.job_id meta.files _).2.1]
        by_cases henc : meta.encrypted = true
        · simp only [henc, if_true]
        · simp only [henc, if_false, Bool.false_eq_true]

lemma recoverFold_tapeExists (manifests : List (Option Manifest))
    (st : RecState) :
    (manifests.foldl recoverManifestStep st).tapeExists = st.tapeExists := by
  induction manifests generalizing st with
  | nil => rfl
  | cons m t ih =>
      rw [List.foldl_cons, ih, recoverStep_tapeExists]

/-- The state after the tape-row creation and the manifest fold of
`recover_database_from_tape`, before the used-capacity recomputation. -/
def recoverCore (st : RecState) (manifests : List (Option Manifest)) :
    RecState :=
  manifests.foldl recoverManifestStep
    (if st.tapeExists then st
     else { st with tapeExists := true, tapeEncrypted := false, used := 0 })

lemma recover_eq (st : RecState) (manifests : List (Option Manifest))
    (hm : manifests ≠ []) :
    recover_database_from_tape st manifests
      = { recoverCore st manifests with
          used := (recoverCore st manifests).jobs.foldl
            (fun acc j => acc + j.size) 0 } := by
  simp only [recover_database_from_tape, recoverCore]
  rw [if_neg hm]

/-- C8: disaster recovery is idempotent — a second run against the same
manifests is a no-op, so job-row count, node count and recomputed used
capacity are identical after the second run. -/
theorem C8_recovery_idempotent (st : RecState)
    (manifests : List (Option Manifest)) :
    recover_database_from_tape (recover_database_from_tape st manifests)
        manifests
      = recover_database_from_tape st manifests
    ∧ (recover_database_from_tape (recover_database_from_tape st manifests)
        manifests).jobs.length
      = (recover_database_from_tape st manifests).jobs.length
    ∧ (recover_database_from_tape (recover_database_from_tape st manifests)
        manifests).nodes.length
      = (recover_database_from_tape st manifests).nodes.length
    ∧ (recover_database_from_tape (recover_database_from_tape st manifests)
        manifests).used
      = (recover_database_from_tape st manifests).used := by
  have hmain : recover_database_from_tape
      (recover_database_from_tape st manifests) manifests
      = recover_database_from_tape st manifests := by
    by_cases hm : manifests = []
    · subst hm
      simp [recover_database_from_tape]
    · have hex1 : (if st.tapeExists then st
          else { st with tapeExists := true, tapeEncrypted := false, used := 0 }).tapeExists = true := by
        by_cases h : st.tapeExists = true
        · rw [if_pos h]
          exact h
        · rw [if_neg h]
      have hexists : (recover_database_from_tape st manifests).tapeExists
          = true := by
        rw [recover_eq st manifests hm]
        show (recoverCore st manifests).tapeExists = true
        simp only [recoverCore]
        rw [recoverFold_tapeExists]
        exact hex1
      have hcover : ∀ meta : Manifest, some meta ∈ manifests →
          ∃ j ∈ (recover_database_from_tape st manifests).jobs,
            j.job_id = meta.job_id := by
        intro meta hmem
        rw [recover_eq st manifests hm]
        show ∃ j ∈ (recoverCore st manifests).jobs, j.job_id = meta.job_id
        simp only [recoverCore]
        exact recoverFold_covers manifests _ meta hmem
      have hcore : recoverCore (recover_database_from_tape st manifests)
          manifests = recover_database_from_tape st manifests := by
        simp only [recoverCore]
        rw [if_pos hexists, recoverFold_noop manifests _ hcover]
      rw [recover_eq (recover_database_from_tape st manifests) manifests hm,
        hcore]
      rw [recover_eq st manifests hm]
  refine ⟨hmain, by rw [hmain], by rw [hmain], by rw [hmain]⟩

/-! ## Restore pipeline (`restore.py`, `crypto.py` `DecryptionReader`) -/

/-- Streaming AES-GCM decryption state (crypto.py lines 58-78): unread
ciphertext byte count, whether GCM finalisation with the stored tag would
succeed on this stream (`tagOk`), and whether `finalize()` has been
attempted (`finalized`) — the only point at which the tag is checked. -/
structure DecryptionReader where
  remaining : Nat
  tagOk     : Bool
  finalized : Bool
deriving Repr, DecidableEq

/-- Outcome of one `DecryptionReader.read` call. -/
inductive ReadResult where
  | chunk (n : Nat)
  | eof
  | integrityError
deriving Repr, DecidableEq

/-- `DecryptionReader.read` (crypto.py lines 68-78): before EOF, decrypt
and return up to `size` bytes; the first read at EOF calls `finalize()`,
which checks the tag — success returns the empty chunk, mismatch raises
the distinct `ValueError("Integrity check failed! ...")`. -/
def DecryptionReader.read (r : DecryptionReader) (size : Nat) :
    ReadResult × DecryptionReader :=
  let n := min size r.remaining
  if n = 0 then
    if r.tagOk then (.eof, { r with finalized := true })
    else (.integrityError, { r with finalized := true })
  else (.chunk n, { r with remaining := r.remaining - n })

/-- The typed failures of `run_restore_job`.  `fileNotFound` remembers
which artifact was probed (`true` = the `.enc` name, `false` = the `.tar`
name), as the `FileNotFoundError` message carries the path. -/
inductive RestoreError where
  | jobNotFound
  | fileNotFound (encrypted : Bool)
  | missingCryptoMaterial
  | integrityFailure
  | extractionError
deriving Repr, DecidableEq

/-- `tarfile`'s record size (20 × 512 bytes): archives written with
`mode="w|"` are padded to a whole number of records, and the `r|` stream
reader requests the underlying file object in chunks of this size. -/
def RECORDSIZE : Nat := 10240

/-- Modelled behaviour of `tarfile.open(mode="r|").extractall` driving the
reader (restore.py line 48): the stream layer pulls RECORDSIZE-byte chunks
from the underlying reader only while header or member bytes are still
needed; because the archive (end-of-archive marker included, written by
`mode="w|"`) ends exactly at the final record boundary of the ciphertext,
extraction consumes exactly the archive's records and never issues the
extra read that would return empty.  A premature EOF aborts extraction
with a tar read error; an integrity error from `finalize()` propagates. -/
def tarReadRecords : Nat → DecryptionReader →
    Except RestoreError DecryptionReader
  | 0, r => .ok r
  | n + 1, r =>
      match r.read RECORDSIZE with
      | (.chunk _, r') => tarReadRecords n r'
      | (.eof, _) => .error .extractionError
      | (.integrityError, _) => .error .integrityFailure

/-- The artifacts present on the tape for the restored job id:
`job_{id}.enc` and `job_{id}.tar` with their byte lengths. -/
structure TapeFiles where
  encFile : Option Nat
  tarFile : Option Nat
deriving Repr, DecidableEq

/-- Embedding of `run_restore_job` (restore.py lines 21-59): look up the
job row; open the artifact chosen by `encrypted=(key is not None)`
(raising `FileNotFoundError` if absent); with a key, require both IV and
tag (else raise) and stream the ciphertext through `DecryptionReader`
into the tar decoder; without a key, decode the plain artifact (the
container decode itself is modelled as succeeding — the claims under
study concern the crypto paths).  Returns the final `DecryptionReader`
state for an encrypted restore so that whether finalisation ever ran is
observable. -/
def run_restore_job (jobs : List Job) (tape : TapeFiles) (job_id : Nat)
    (key : Option String) (tagOk : Bool) :
    Except RestoreError (Option DecryptionReader) :=
  match jobs.find? (fun j => j.job_id == job_id) with
  | none => .error .jobNotFound
  | some row =>
      let wantEnc := key.isSome
      match (if wantEnc then tape.encFile else tape.tarFile) with
      | none => .error (.fileNotFound wantEnc)
      | some len =>
          match key with
          | some _ =>
              if row.iv_hex.isNone || row.tag_hex.isNone then
                .error .missingCryptoMaterial
              else
                match tarReadRecords (len / RECORDSIZE) ⟨len, tagOk, false⟩ with
                | .ok r => .ok (some r)
                | .error e => .error e
          | none => .ok none

lemma tarReadRecords_aligned (k : Nat) (tagOk fin : Bool) :
    tarReadRecords k ⟨k * RECORDSIZE, tagOk, fin⟩ = .ok ⟨0, tagOk, fin⟩ := by
  induction k with
  | zero => rfl
  | succ k ih =>
      have hmin : min RECORDSIZE ((k + 1) * RECORDSIZE) = RECORDSIZE := by
        have : RECORDSIZE ≤ (k + 1) * RECORDSIZE := by
          unfold RECORDSIZE
          omega
        omega
      have hne : RECORDSIZE ≠ 0 := by
        unfold RECORDSIZE
        omega
      simp only [tarReadRecords, DecryptionReader.read, hmin]
      rw [if_neg hne]
      have hsub : (k + 1) * RECORDSIZE - RECORDSIZE = k * RECORDSIZE := by
        unfold RECORDSIZE
        omega
      simp only [hsub]
      exact ih

/-- C7 evaluated at the failing input: an encrypted job whose stored tag
does NOT match its ciphertext (one full tar record of 10240 bytes on
tape, correct key supplied).  `run_restore_job` completes successfully —
it consumes exactly the archive records, never reaches the EOF read that
would call `finalize()`, and so reports success with `finalized = false`
instead of raising the integrity error the claim requires. -/
theorem C7_restore_tag_mismatch_not_detected :
    run_restore_job
        [⟨1, "BACKUP", "FULL", "SUCCESS", some "0011", some "aabb", 10240⟩]
        ⟨some 10240, none⟩ 1 (some "k") false
      = .ok (some ⟨0, false, false⟩) := by
  rfl

/-- Modelled from the spec (§4.6 restore pipeline, §7 error taxonomy), for
comparison with the source behaviour: the restore flow as claim C9 reads
it, with the encrypted-versus-plain decision made from the job row's
encrypted status, and an encrypted job restored without a caller key
surfacing as the missing-crypto-material error. -/
def run_restore_job_specDecision (jobs : List Job) (tape : TapeFiles)
    (job_id : Nat) (key : Option String) (tagOk : Bool) :
    Except RestoreError (Option DecryptionReader) :=
  match jobs.find? (fun j => j.job_id == job_id) with
  | none => .error .jobNotFound
  | some row =>
      let isEnc := row.iv_hex.isSome
      match (if isEnc then tape.encFile else tape.tarFile) with
      | none => .error (.fileNotFound isEnc)
      | some len =>
          if isEnc then
            match key with
            | none => .error .missingCryptoMaterial
            | some _ =>
                if row.tag_hex.isNone then .error .missingCryptoMaterial
                else
                  match tarReadRecords (len / RECORDSIZE)
                      ⟨len, tagOk, false⟩ with
                  | .ok r => .ok (some r)
                  | .error e => .error e
          else .ok none

/-- C9 counterexample: an encrypted job row (IV and tag stored, `.enc`
artifact present, `.tar` absent) restored without a key.  Deciding from
the job's encrypted status — as the claim states — yields the
missing-crypto-material error; the code decides from `key is not None`,
takes the plain path, probes the absent `.tar` artifact, and fails with
`FileNotFoundError` instead. -/
theorem C9_decision_from_key_counterexample :
    run_restore_job
        [⟨1, "BACKUP", "FULL", "SUCCESS", some "0011", some "aabb", 10240⟩]
        ⟨some 10240, none⟩ 1 none true
      = .error (.fileNotFound false)
    ∧ run_restore_job_specDecision
        [⟨1, "BACKUP", "FULL", "SUCCESS", some "0011", some "aabb", 10240⟩]
        ⟨some 10240, none⟩ 1 none true
      = .error .missingCryptoMaterial :=
  ⟨rfl, rfl⟩

/-- C9 amended: missing crypto material is fatal before any extraction,
but the encrypted-versus-plain decision is made from whether the caller
supplies a key: with a key supplied, a job row missing IV or tag raises
the fatal missing-crypto error before extraction; without a key, a job
whose only artifact is the encrypted one fails with a file-not-found
error on the plain artifact name. -/
theorem C9_missing_crypto_fatal (jobs : List Job) (tape : TapeFiles)
    (job_id : Nat) (k : String) (tagOk : Bool) (row : Job) (len : Nat)
    (hrow : jobs.find? (fun j => j.job_id == job_id) = some row) :
    (tape.encFile = some len → (row.iv_hex = none ∨ row.tag_hex = none) →
      run_restore_job jobs tape job_id (some k) tagOk
        = .error .missingCryptoMaterial)
    ∧ (tape.tarFile = none →
      run_restore_job jobs tape job_id none tagOk
        = .error (.fileNotFound false)) := by
  constructor
  · intro hf hmiss
    simp only [run_restore_job, hrow, Option.isSome_some, if_true, hf]
    have hcond : (row.iv_hex.isNone || row.tag_hex.isNone) = true := by
      rcases hmiss with h | h
      · rw [h]
        rfl
      · rw [h]
        simp
    rw [if_pos hcond]
  · intro ht
    simp only [run_restore_job, hrow, Option.isSome_none, Bool.false_eq_true,
      if_false, ht]

/-- Jobs list for the C9 witness: a job row that lacks its IV. -/
def jobsC9 : List Job :=
  [⟨1, "BACKUP", "FULL", "SUCCESS", none, some "aabb", 10240⟩]

theorem C9_missing_crypto_fatal_witness :
    jobsC9.find? (fun j => j.job_id == 1)
        = some ⟨1, "BACKUP", "FULL", "SUCCESS", none, some "aabb", 10240⟩
    ∧ run_restore_job jobsC9 ⟨some 10240, none⟩ 1 (some "k") true
        = .error .missingCryptoMaterial
    ∧ run_restore_job jobsC9 ⟨some 10240, none⟩ 1 none true
        = .error (.fileNotFound false) :=
  ⟨rfl,
   (C9_missing_crypto_fatal jobsC9 ⟨some 10240, none⟩ 1 "k" true
      ⟨1, "BACKUP", "FULL", "SUCCESS", none, some "aabb", 10240⟩ 10240
      rfl).1 rfl (Or.inl rfl),
   (C9_missing_crypto_fatal jobsC9 ⟨some 10240, none⟩ 1 "k" true
      ⟨1, "BACKUP", "FULL", "SUCCESS", none, some "aabb", 10240⟩ 10240
      rfl).2 rfl⟩

end LTO
